import Mathlib

/-!
# Shopify → HubSpot sync: verification of the spec against the code

Shallow embedding of the sync engine of the `Shopify_to_hubspots` repository
(the `Dynamic_custom_attribute_code/05_dynamic_fileds/sync_manager.py` variant,
plus the `04_filed_map` and `01_run_but_confilt_so_filed_missing` variants and
the `Create_custom_attributes` service files where the claims cite them).

Python JSON-ish values are modelled by `JValue`; Python dicts are insertion-
ordered association lists with unique keys, and the dict operations
(item assignment, `.get`, `.pop`) are modelled by `aset`, `alookup`, `apop`.
Python numbers are modelled by `Int` only (the repository's configs and the
claims at issue never rely on float semantics), Python `==` between values of
different primitive types (e.g. `True == 1`) is modelled as structural
disequality, and JSON string escaping inside `json.dumps` is not modelled
(all concrete strings in scope are plain ASCII without quotes or backslashes);
no claim below depends on those cases.  Network calls are modelled as explicit
effect traces (`NetCall`), with the transport's responses supplied as data
(`Transport`), and the honest destination of §6 of the spec as explicit state
(`HRecord` lists).
-/

/-- A Python / JSON value as it appears in the sync pipeline:
`None`, `bool`, `int`, `str`, `list`, `dict`. -/
inductive JValue where
  | null : JValue
  | b : Bool → JValue
  | i : Int → JValue
  | s : String → JValue
  | arr : List JValue → JValue
  | obj : List (String × JValue) → JValue

mutual

/-- Python `==` on `JValue`, structurally. -/
def pyEq : JValue → JValue → Bool
  | .null, .null => true
  | .b x, .b y => x == y
  | .i x, .i y => x == y
  | .s x, .s y => x == y
  | .arr xs, .arr ys => pyEqList xs ys
  | .obj xs, .obj ys => pyEqFields xs ys
  | _, _ => false

/-- Python `==` on lists of values. -/
def pyEqList : List JValue → List JValue → Bool
  | [], [] => true
  | x :: xs, y :: ys => pyEq x y && pyEqList xs ys
  | _, _ => false

/-- Python `==` on dicts (as ordered field lists). -/
def pyEqFields : List (String × JValue) → List (String × JValue) → Bool
  | [], [] => true
  | (k1, v1) :: xs, (k2, v2) :: ys => k1 == k2 && pyEq v1 v2 && pyEqFields xs ys
  | _, _ => false

end

/-- Python truthiness (`if value:`): `None`, `False`, `0`, `""`, `[]`, the
empty dict are falsy, everything else truthy. -/
def pyTruthy : JValue → Bool
  | .null => false
  | .b v => v
  | .i n => n != 0
  | .s v => !v.data.isEmpty
  | .arr xs => !xs.isEmpty
  | .obj fs => !fs.isEmpty

/-- A scalar (non-structured) value: not a list and not a mapping. -/
def isScalar : JValue → Bool
  | .arr _ => false
  | .obj _ => false
  | _ => true

/-- `d.get(k)` on a Python dict modelled as an ordered association list:
the value at the first matching key. -/
def alookup {α : Type} : List (String × α) → String → Option α
  | [], _ => none
  | (k, v) :: rest, key => if k = key then some v else alookup rest key

/-- `d[k] = v` on a Python dict: overwrite in place if the key exists,
else append at the end (Python dicts preserve insertion order). -/
def aset {α : Type} : List (String × α) → String → α → List (String × α)
  | [], key, v => [(key, v)]
  | (k, w) :: rest, key, v =>
      if k = key then (k, v) :: rest else (k, w) :: aset rest key v

/-- `d.pop(k, None)` on a Python dict: remove the first entry with the key. -/
def apop {α : Type} : List (String × α) → String → List (String × α)
  | [], _ => []
  | (k, w) :: rest, key => if k = key then rest else (k, w) :: apop rest key

/-- The keys of an association list, in order. -/
def akeys {α : Type} (l : List (String × α)) : List String := l.map Prod.fst

/-- A property map (`properties` in the source): an ordered Python dict from
destination property name to value. -/
abbrev PropMap := List (String × JValue)

/-- Python `value in xs` on a list (membership via `==`). -/
def pyMem (v : JValue) (xs : List JValue) : Bool := xs.any (fun x => pyEq x v)

/-- Python `int(s)` on a string, as used for path indices: strip surrounding
whitespace, optional sign, then a non-empty digit run.  (Python additionally
accepts `_` digit-group separators; path segments never use them and no claim
depends on that case.)  `none` models the `ValueError` the source catches. -/
def parsePyInt (str : String) : Option Int :=
  let t := ((str.data.dropWhile Char.isWhitespace).reverse.dropWhile
      Char.isWhitespace).reverse
  let core := match t with
    | '-' :: rest => rest
    | '+' :: rest => rest
    | _ => t
  let sign : Int := match t with
    | '-' :: _ => -1
    | _ => 1
  if core ≠ [] ∧ core.all Char.isDigit then
    some (sign * (core.foldl (fun acc c => acc * 10 + (c.toNat - '0'.toNat)) 0 : Nat))
  else none

/-- Python sequence indexing `xs[i]` with negative-index support; `none`
models the `IndexError` the source catches. -/
def pyListGet (xs : List JValue) (idx : Int) : Option JValue :=
  let j := if idx < 0 then idx + xs.length else idx
  if h : 0 ≤ j ∧ j.toNat < xs.length then some (xs.get ⟨j.toNat, h.2⟩) else none

/-- Python `path.split(".")`: split on every dot; the empty string yields
`[""]`.  (Defined over the character list so that it evaluates by `rfl`.) -/
def splitDotChars : List Char → List Char → List String
  | [], acc => [String.mk acc.reverse]
  | '.' :: rest, acc => String.mk acc.reverse :: splitDotChars rest []
  | c :: rest, acc => splitDotChars rest (c :: acc)

/-- `str(path).split(".")` of the source. -/
def pySplitDot (s : String) : List String := splitDotChars s.data []

/-- The loop of `SyncManager.get_nested_value` over the already-split path
segments.  Mirrors the source: a list applies `int(key)` indexing inside
`try/except` (any failure returns `None`), a dict uses `.get` (a missing key
gives `None`, which the next iteration sends to the scalar branch), any
other value returns `None`.  Python's `None` is `JValue.null`. -/
def getNestedKeys : JValue → List String → JValue
  | data, [] => data
  | .arr xs, key :: rest =>
      match parsePyInt key with
      | some idx =>
          match pyListGet xs idx with
          | some v => getNestedKeys v rest
          | none => .null
      | none => .null
  | .obj fs, key :: rest => getNestedKeys ((alookup fs key).getD .null) rest
  | _, _ :: _ => .null

/-- `SyncManager.get_nested_value(data, path)` of
`05_dynamic_fileds/sync_manager.py`: split the path on `"."` and walk. -/
def get_nested_value (data : JValue) (path : String) : JValue :=
  getNestedKeys data (pySplitDot path)

mutual

/-- `json.dumps` (default arguments: separators `", "` and `": "`, no
`sort_keys`, so dict insertion order is kept). -/
def pyJsonDumps : JValue → String
  | .null => "null"
  | .b true => "true"
  | .b false => "false"
  | .i n => toString n
  | .s v => "\"" ++ v ++ "\""
  | .arr xs => "[" ++ dumpsList xs ++ "]"
  | .obj fs => "\x7b" ++ dumpsFields fs ++ "\x7d"

/-- `json.dumps` of the elements of a list, comma-separated. -/
def dumpsList : List JValue → String
  | [] => ""
  | [x] => pyJsonDumps x
  | x :: y :: rest => pyJsonDumps x ++ ", " ++ dumpsList (y :: rest)

/-- `json.dumps` of the fields of a dict, comma-separated, insertion order. -/
def dumpsFields : List (String × JValue) → String
  | [] => ""
  | [(k, v)] => "\"" ++ k ++ "\": " ++ pyJsonDumps v
  | (k, v) :: f :: rest =>
      "\"" ++ k ++ "\": " ++ pyJsonDumps v ++ ", " ++ dumpsFields (f :: rest)

end

/-- One `allowed_values` entry of the config: `rules.get("allowed", [])` and
`rules.get("default", None)`. -/
structure Rule where
  allowed : List JValue
  default : JValue

/-- The body of the allowed-values loop of
`05_dynamic_fileds/sync_manager.py` (step 3 of `send_to_hubspot`) for one
configured field: if the field is present with a non-`None` value, the
allowed list is non-empty and the value is not in it, substitute the default
when the default is truthy, else pop the field. -/
def applyRule (props : PropMap) (field : String) (r : Rule) : PropMap :=
  match alookup props field with
  | none => props
  | some v =>
    match v with
    | .null => props
    | v =>
      if !r.allowed.isEmpty && !pyMem v r.allowed then
        if pyTruthy r.default then aset props field r.default
        else apop props field
      else props

/-- Step 3 of `send_to_hubspot` (`05_dynamic_fileds`): iterate the
`allowed_values` config in insertion order, mutating the property map.
(The spec's `normalize`; that name is taken by Mathlib.) -/
def normalizeAllowed (props : PropMap) (rules : List (String × Rule)) : PropMap :=
  rules.foldl (fun p fr => applyRule p fr.1 fr.2) props

/-- The state of one field after the allowed-values loop has visited its
rule: any surviving value is `None`, or under an empty allowed list, or in
the allowed list, or equal to the rule's truthy default. -/
def normalizedAt (p : PropMap) (field : String) (r : Rule) : Prop :=
  ∀ v, alookup p field = some v →
    v = .null ∨ r.allowed = [] ∨ pyMem v r.allowed = true ∨
      (pyTruthy r.default = true ∧ v = r.default)

/-- Step 1 of `send_to_hubspot` (`05_dynamic_fileds`): build the property map
from the static `field_mapping` via `get_nested_value`; values (including
`None` and structured ones) are assigned verbatim. -/
def mapFields05 (mapping : List (String × String)) (obj : JValue) : PropMap :=
  mapping.foldl (fun props m => aset props m.2 (get_nested_value obj m.1)) []

/-- Step 2 of `send_to_hubspot` (`05_dynamic_fileds`): overlay the fetched
metafields verbatim-keyed (`properties[meta["key"]] = meta.get("value")`). -/
def addMetafields (props : PropMap) (metafields : List (String × JValue)) :
    PropMap :=
  metafields.foldl (fun p kv => aset p kv.1 kv.2) props

/-- `if isinstance(value, (dict, list)): value = json.dumps(value)` of the
field-mapping loop in `04_filed_map`. -/
def flatten04 : JValue → JValue
  | .arr xs => JValue.s (pyJsonDumps (.arr xs))
  | .obj fs => JValue.s (pyJsonDumps (.obj fs))
  | w => w

/-- The field-mapping step of `send_to_hubspot` in `04_filed_map`: a flat
`shopify_obj.get(field)`, with `dict`/`list` values serialized through
`json.dumps` before assignment. -/
def mapFields04 (mapping : List (String × String))
    (obj : List (String × JValue)) : PropMap :=
  mapping.foldl (fun props m =>
    aset props m.2 (flatten04 ((alookup obj m.1).getD .null))) []

/-- An observable network call of the per-record sync. -/
inductive NetCall where
  | fetchMetafields : NetCall
  | listProperties : NetCall
  | createProperty : String → NetCall
  | searchCall : NetCall
  | createCall : NetCall
  | patchCall : Nat → NetCall
  deriving DecidableEq, Repr

/-- The per-record outcome as observably classified by the source's prints
and returns. -/
inductive Outcome where
  | created : Outcome
  | updated : Outcome
  | skippedNoUnique : Outcome
  | failedCreate : Outcome
  deriving DecidableEq, Repr

/-- A destination (HubSpot) record: destination-assigned id plus stored
properties. -/
structure HRecord where
  id : Nat
  props : PropMap

/-- The transport responses consumed by one `send_to_hubspot` call, supplied
as data: the metafield fetch body, the property-listing body, the search
response status and body, and the create response status. -/
structure Transport where
  metafields : List (String × JValue)
  hubspotProperties : List String
  searchStatus : Nat
  searchResults : List HRecord
  createStatus : Nat

/-- One object type's config slice as `send_to_hubspot` reads it. -/
structure Cfg where
  fieldMapping : List (String × String)
  allowedValues : List (String × Rule)
  uniqueField : String
  propertyGroup : String

/-- Steps 1–3 of `send_to_hubspot` (`05_dynamic_fileds`): static mapping,
metafield overlay, allowed-values normalization. -/
def resolvedProps05 (cfg : Cfg) (obj : JValue)
    (metafields : List (String × JValue)) : PropMap :=
  normalizeAllowed (addMetafields (mapFields05 cfg.fieldMapping obj) metafields)
    cfg.allowedValues

/-- Step 4 of `send_to_hubspot` (`05_dynamic_fileds`) as an effect trace: one
`get_hubspot_properties` listing, then one creation call per property name
missing from that single listing — with no re-fetch in between. -/
def ensureCalls05 (propNames : List String) (existing : List String) :
    List NetCall :=
  NetCall.listProperties ::
    (propNames.filter (fun f => !existing.contains f)).map NetCall.createProperty

/-- `SyncManager.send_to_hubspot` of `05_dynamic_fileds/sync_manager.py` with
the transport's responses supplied as data, returning the outcome and the
trace of network calls in program order: metafield fetch, property listing,
property creations, then — only when the unique-field value is truthy — the
search and the create (checked for 201) or the patch (status unchecked). -/
def sendToHubspot05 (cfg : Cfg) (obj : JValue) (t : Transport) :
    Outcome × List NetCall :=
  let props := resolvedProps05 cfg obj t.metafields
  let pre := NetCall.fetchMetafields ::
    ensureCalls05 (akeys props) t.hubspotProperties
  if !pyTruthy ((alookup props cfg.uniqueField).getD .null) then
    (.skippedNoUnique, pre)
  else
    let results := if t.searchStatus == 200 then t.searchResults else []
    match results with
    | r :: _ => (.updated, pre ++ [.searchCall, .patchCall r.id])
    | [] =>
        (if t.createStatus == 201 then .created else .failedCreate,
         pre ++ [.searchCall, .createCall])

/-- A fresh destination-assigned record id. -/
def freshId (st : List HRecord) : Nat := (st.map HRecord.id).foldl max 0 + 1

/-- The destination's search (`findByUniqueField`, spec §6): the records whose
stored value at the field equals the searched value, in destination order. -/
def searchMatches (st : List HRecord) (field : String) (v : JValue) :
    List HRecord :=
  st.filter (fun r => match alookup r.props field with
    | some w => pyEq w v
    | none => false)

/-- The destination's record update: merge the sent properties into the
record with the given id. -/
def updateRecord (st : List HRecord) (rid : Nat) (props : PropMap) :
    List HRecord :=
  st.map (fun r =>
    if r.id = rid then ⟨r.id, addMetafields r.props props⟩ else r)

/-- Steps 5–6 of `send_to_hubspot` (`05_dynamic_fileds`) — the upsert engine
of spec §4.4 — run against the honest destination of spec §6: skip on a falsy
unique value with no call; otherwise search (limit 1, first result wins),
patch the first match's id, or create when there is no match. Returns the
outcome, the new destination state, and the upsert's network calls. -/
def upsert05 (uniqueField : String) (props : PropMap) (st : List HRecord) :
    Outcome × List HRecord × List NetCall :=
  let uv := (alookup props uniqueField).getD .null
  if !pyTruthy uv then (.skippedNoUnique, st, [])
  else
    match (searchMatches st uniqueField uv).take 1 with
    | r :: _ =>
        (.updated, updateRecord st r.id props, [.searchCall, .patchCall r.id])
    | [] =>
        (.created, st ++ [⟨freshId st, props⟩], [.searchCall, .createCall])

/-- Transport failure (network error / timeout raised by `httpx`). -/
inductive TransportErr where
  | timeout : TransportErr
  | connError : TransportErr
  deriving DecidableEq

/-- What `create_hubspot_property` observably does with a response. -/
inductive PropEnsureResult where
  | ready : PropEnsureResult
  | failedLogged : PropEnsureResult
  deriving DecidableEq

/-- `SyncManager.create_hubspot_property` of `05_dynamic_fileds` (identical in
`04_filed_map`): statuses 201 and 409 both print "Property ready"; any other
status is only logged; there is no `raise_for_status`, so an exception escapes
only when the transport call itself raised. -/
def create_hubspot_property (resp : Except TransportErr Nat) :
    Except TransportErr PropEnsureResult :=
  match resp with
  | .error e => .error e
  | .ok status =>
      .ok (if status == 201 || status == 409 then .ready else .failedLogged)

/-- What the property-creation branch of
`Create_custom_attributes/utils/sync_attributes.py` prints per status. -/
inductive PropCreateMsg where
  | createdNew : PropCreateMsg
  | alreadyExists : PropCreateMsg
  | failedLogged : PropCreateMsg
  deriving DecidableEq

/-- The status classification of `sync_custom_attributes` (lines 37–42):
201 → created, 409 → already exists, anything else → logged failure; all
three continue the loop. -/
def classifyAttrCreation (status : Nat) : PropCreateMsg :=
  if status == 201 then .createdNew
  else if status == 409 then .alreadyExists
  else .failedLogged

/-- The per-customer ensure loop of `sync_custom_attributes` (lines 33–45) as
an effect trace against an honest destination: for each metafield key missing
from the current property set, a creation call immediately followed by a
re-fetch of the property set (whose honest response now contains the key). -/
def ensureAttrs : List String → List String → List NetCall
  | [], _ => []
  | k :: ks, props =>
      if props.contains k then ensureAttrs ks props
      else .createProperty k :: .listProperties :: ensureAttrs ks (k :: props)

/-- Checks a trace for the re-fetch-after-every-creation discipline: every
property-creation call is immediately followed by a property listing. -/
def immediatelyRefetched : List NetCall → Bool
  | [] => true
  | .createProperty _ :: rest =>
      match rest with
      | .listProperties :: rest2 => immediatelyRefetched rest2
      | _ => false
  | _ :: rest => immediatelyRefetched rest

/-- The result of processing one source record in the orchestrator: either a
per-record outcome, or a raised exception (modelled with its message). -/
inductive RunOutcome where
  | ok : Outcome → RunOutcome
  | exc : String → RunOutcome

/-- `SyncManager.sync_all` of `05_dynamic_fileds` over one object type's
records, with each record's processing result supplied as data: there is no
`try/except`, so the first raising record aborts the run; the outcomes
produced before it, and the escaping exception, are returned. -/
def syncAll05 : List RunOutcome → List Outcome × Option String
  | [] => ([], none)
  | .ok o :: rs => ((syncAll05 rs).1.cons o, (syncAll05 rs).2)
  | .exc m :: _ => ([], some m)

/-- The per-object-type body of `sync_all` in
`01_run_but_confilt_so_filed_missing` under its `try`: outcomes until the
first raising record; the flag records that the exception was caught at the
object-type boundary (dropping that type's remaining records). -/
def processType01 : List RunOutcome → List Outcome × Bool
  | [] => ([], false)
  | .ok o :: rs => ((processType01 rs).1.cons o, (processType01 rs).2)
  | .exc _ :: _ => ([], true)

/-- `SyncManager.sync_all` of `01_run_but_confilt_so_filed_missing`: each
object type is processed under its own `try/except`, so a failure in one
object type never stops the following object types. -/
def syncAll01 (types : List (List RunOutcome)) : List (List Outcome × Bool) :=
  types.map processType01

/-! ## Helper lemmas -/

mutual

theorem pyEq_refl : (v : JValue) → pyEq v v = true
  | .null => rfl
  | .b x => by simp [pyEq]
  | .i x => by simp [pyEq]
  | .s x => by simp [pyEq]
  | .arr xs => by simp [pyEq, pyEqList_refl xs]
  | .obj fs => by simp [pyEq, pyEqFields_refl fs]

theorem pyEqList_refl : (xs : List JValue) → pyEqList xs xs = true
  | [] => rfl
  | x :: xs => by simp [pyEqList, pyEq_refl x, pyEqList_refl xs]

theorem pyEqFields_refl : (fs : List (String × JValue)) → pyEqFields fs fs = true
  | [] => rfl
  | (k, v) :: fs => by simp [pyEqFields, pyEq_refl v, pyEqFields_refl fs]

end

/-! ## C3 — path resolution is total and fails soft -/

/-- C3 — `get_nested_value` is total and fails soft: a missing mapping key, a
non-integer index into a sequence, an out-of-range index into a sequence, and
any attempt to descend into a scalar each yield `null`, never an exception
(the function is a total Lean function into `JValue`; the only fallible
primitives, `int(key)` and `xs[i]`, are consumed by the modelled
`try/except`). -/
theorem get_nested_value_fail_soft :
    (∀ (data : JValue) (path : String),
      get_nested_value data path = getNestedKeys data (pySplitDot path)) ∧
    (∀ (fs : List (String × JValue)) (key : String) (rest : List String),
      alookup fs key = none →
      getNestedKeys (.obj fs) (key :: rest) = getNestedKeys .null rest) ∧
    (∀ (xs : List JValue) (key : String) (rest : List String),
      parsePyInt key = none →
      getNestedKeys (.arr xs) (key :: rest) = .null) ∧
    (∀ (xs : List JValue) (key : String) (rest : List String) (idx : Int),
      parsePyInt key = some idx → pyListGet xs idx = none →
      getNestedKeys (.arr xs) (key :: rest) = .null) ∧
    (∀ (v : JValue) (key : String) (rest : List String),
      isScalar v = true →
      getNestedKeys v (key :: rest) = .null) ∧
    (∀ (rest : List String), getNestedKeys .null rest = .null) := by
  refine ⟨fun _ _ => rfl, ?_, ?_, ?_, ?_, ?_⟩
  · intro fs key rest h
    simp [getNestedKeys, h]
  · intro xs key rest h
    simp [getNestedKeys, h]
  · intro xs key rest idx h h2
    simp [getNestedKeys, h, h2]
  · intro v key rest h
    cases v <;> simp_all [isScalar, getNestedKeys]
  · intro rest
    cases rest <;> simp [getNestedKeys]

/-- C3 witness: the fail-soft cases evaluated at concrete inputs — a missing
key, a non-numeric index, an out-of-range index, and a descent into a scalar
each produce `null`. -/
theorem get_nested_value_fail_soft_witness :
    get_nested_value (.obj [("a", .i 1)]) "b" = .null ∧
    getNestedKeys (.arr [.i 1]) ["x"] = .null ∧
    getNestedKeys (.arr [.i 1]) ["5"] = .null ∧
    getNestedKeys (.s "hi") ["0"] = .null := by
  refine ⟨?_, ?_, ?_, ?_⟩
  · have e := get_nested_value_fail_soft.1 (.obj [("a", .i 1)]) "b"
    have h := get_nested_value_fail_soft.2.1 [("a", .i 1)] "b" [] rfl
    have : pySplitDot "b" = ["b"] := rfl
    rw [e, this, h]
    exact get_nested_value_fail_soft.2.2.2.2.2 []
  · exact get_nested_value_fail_soft.2.2.1 [.i 1] "x" [] rfl
  · exact get_nested_value_fail_soft.2.2.2.1 [.i 1] "5" [] 5 rfl rfl
  · exact get_nested_value_fail_soft.2.2.2.2.1 (.s "hi") "0" [] rfl


theorem akeys_cons {α : Type} (k : String) (v : α) (tl : List (String × α)) :
    akeys ((k, v) :: tl) = k :: akeys tl := rfl

theorem alookup_aset_self {α : Type} (p : List (String × α)) (k : String)
    (v : α) : alookup (aset p k v) k = some v := by
  induction p with
  | nil => simp [aset, alookup]
  | cons hd tl ih =>
    obtain ⟨k0, v0⟩ := hd
    by_cases h : k0 = k <;> simp [aset, alookup, h, ih]

theorem alookup_aset_ne {α : Type} (p : List (String × α)) (k k' : String)
    (v : α) (h : k' ≠ k) : alookup (aset p k v) k' = alookup p k' := by
  have h2 : ¬(k = k') := fun e => h e.symm
  induction p with
  | nil => simp [aset, alookup, h2]
  | cons hd tl ih =>
    obtain ⟨k0, v0⟩ := hd
    by_cases h0 : k0 = k
    · subst h0
      simp [aset, alookup, h2]
    · by_cases h1 : k0 = k' <;> simp [aset, alookup, h0, h1, h, ih]

theorem alookup_apop_ne {α : Type} (p : List (String × α)) (k k' : String)
    (h : k' ≠ k) : alookup (apop p k) k' = alookup p k' := by
  induction p with
  | nil => simp [apop]
  | cons hd tl ih =>
    obtain ⟨k0, v0⟩ := hd
    by_cases h0 : k0 = k
    · subst h0
      have h2 : ¬(k0 = k') := fun e => h e.symm
      simp [apop, alookup, h2]
    · by_cases h1 : k0 = k' <;> simp [apop, alookup, h0, h1, h, ih]

theorem alookup_eq_none_of_not_mem {α : Type} (p : List (String × α))
    (k : String) (h : k ∉ akeys p) : alookup p k = none := by
  induction p with
  | nil => rfl
  | cons hd tl ih =>
    obtain ⟨k0, v0⟩ := hd
    rw [akeys_cons, List.mem_cons] at h
    push_neg at h
    have h0 : ¬(k0 = k) := fun e => h.1 e.symm
    simp [alookup, h0, ih h.2]

theorem alookup_apop_self {α : Type} (p : List (String × α)) (k : String)
    (h : (akeys p).Nodup) : alookup (apop p k) k = none := by
  induction p with
  | nil => rfl
  | cons hd tl ih =>
    obtain ⟨k0, v0⟩ := hd
    rw [akeys_cons, List.nodup_cons] at h
    by_cases h0 : k0 = k
    · subst h0
      simp [apop, alookup_eq_none_of_not_mem tl k0 h.1]
    · simp [apop, alookup, h0, ih h.2]

theorem aset_of_alookup_eq {α : Type} (p : List (String × α)) (k : String)
    (v : α) (h : alookup p k = some v) : aset p k v = p := by
  induction p with
  | nil => simp [alookup] at h
  | cons hd tl ih =>
    obtain ⟨k0, v0⟩ := hd
    by_cases h0 : k0 = k
    · subst h0
      rw [alookup, if_pos rfl, Option.some.injEq] at h
      rw [aset, if_pos rfl, h]
    · rw [alookup, if_neg h0] at h
      rw [aset, if_neg h0, ih h]

theorem mem_akeys_aset {α : Type} (p : List (String × α)) (k k' : String)
    (v : α) (h : k' ∈ akeys (aset p k v)) : k' ∈ akeys p ∨ k' = k := by
  induction p with
  | nil =>
    rw [aset, akeys_cons, List.mem_cons] at h
    rcases h with h | h
    · exact Or.inr h
    · simp [akeys] at h
  | cons hd tl ih =>
    obtain ⟨k0, v0⟩ := hd
    by_cases h0 : k0 = k
    · subst h0
      rw [aset, if_pos rfl, akeys_cons, List.mem_cons] at h
      rw [akeys_cons, List.mem_cons]
      rcases h with h | h
      · exact Or.inl (Or.inl h)
      · exact Or.inl (Or.inr h)
    · rw [aset, if_neg h0, akeys_cons, List.mem_cons] at h
      rw [akeys_cons, List.mem_cons]
      rcases h with h | h
      · exact Or.inl (Or.inl h)
      · rcases ih h with h2 | h2
        · exact Or.inl (Or.inr h2)
        · exact Or.inr h2

theorem akeys_aset_nodup {α : Type} (p : List (String × α)) (k : String)
    (v : α) (h : (akeys p).Nodup) : (akeys (aset p k v)).Nodup := by
  induction p with
  | nil => simp [aset, akeys]
  | cons hd tl ih =>
    obtain ⟨k0, v0⟩ := hd
    rw [akeys_cons, List.nodup_cons] at h
    by_cases h0 : k0 = k
    · subst h0
      rw [aset, if_pos rfl, akeys_cons, List.nodup_cons]
      exact h
    · rw [aset, if_neg h0, akeys_cons, List.nodup_cons]
      refine ⟨fun hm => ?_, ih h.2⟩
      rcases mem_akeys_aset tl k k0 v hm with h2 | h2
      · exact h.1 h2
      · exact h0 h2

theorem akeys_apop_sublist {α : Type} (p : List (String × α)) (k : String) :
    (akeys (apop p k)).Sublist (akeys p) := by
  induction p with
  | nil => simp [apop]
  | cons hd tl ih =>
    obtain ⟨k0, v0⟩ := hd
    by_cases h0 : k0 = k
    · subst h0
      rw [apop, if_pos rfl, akeys_cons]
      exact List.sublist_cons_self _ _
    · rw [apop, if_neg h0, akeys_cons, akeys_cons]
      exact List.Sublist.cons₂ k0 ih

theorem akeys_apop_nodup {α : Type} (p : List (String × α)) (k : String)
    (h : (akeys p).Nodup) : (akeys (apop p k)).Nodup :=
  (akeys_apop_sublist p k).nodup h

theorem applyRule_none (p : PropMap) (f : String) (r : Rule)
    (h : alookup p f = none) : applyRule p f r = p := by
  unfold applyRule
  rw [h]

theorem applyRule_null (p : PropMap) (f : String) (r : Rule)
    (h : alookup p f = some .null) : applyRule p f r = p := by
  unfold applyRule
  rw [h]

theorem applyRule_some (p : PropMap) (f : String) (r : Rule) (v : JValue)
    (h : alookup p f = some v) (hv : v ≠ .null) :
    applyRule p f r =
      if !r.allowed.isEmpty && !pyMem v r.allowed then
        (if pyTruthy r.default then aset p f r.default else apop p f)
      else p := by
  unfold applyRule
  rw [h]
  cases v with
  | null => exact absurd rfl hv
  | b x => rfl
  | i n => rfl
  | s x => rfl
  | arr xs => rfl
  | obj fs => rfl

theorem applyRule_lookup_ne (p : PropMap) (f : String) (r : Rule)
    (k' : String) (h : k' ≠ f) :
    alookup (applyRule p f r) k' = alookup p k' := by
  cases hl : alookup p f with
  | none => rw [applyRule_none p f r hl]
  | some v =>
    cases v
    case null => rw [applyRule_null p f r hl]
    all_goals
      rw [applyRule_some p f r _ hl (by simp)]
      split_ifs
      · exact alookup_aset_ne p f k' r.default h
      · exact alookup_apop_ne p f k' h
      · rfl

theorem applyRule_nodup (p : PropMap) (f : String) (r : Rule)
    (h : (akeys p).Nodup) : (akeys (applyRule p f r)).Nodup := by
  cases hl : alookup p f with
  | none => rw [applyRule_none p f r hl]; exact h
  | some v =>
    cases v
    case null => rw [applyRule_null p f r hl]; exact h
    all_goals
      rw [applyRule_some p f r _ hl (by simp)]
      split_ifs
      · exact akeys_aset_nodup p f r.default h
      · exact akeys_apop_nodup p f h
      · exact h

theorem normalizedAt_congr (p q : PropMap) (f : String) (r : Rule)
    (h : alookup p f = alookup q f) (hn : normalizedAt p f r) :
    normalizedAt q f r :=
  fun v hv => hn v (h.trans hv)

theorem applyRule_normalizedAt (p : PropMap) (f : String) (r : Rule)
    (hp : (akeys p).Nodup) : normalizedAt (applyRule p f r) f r := by
  cases hl : alookup p f with
  | none =>
    rw [applyRule_none p f r hl]
    intro v hv
    rw [hl] at hv
    exact absurd hv (by simp)
  | some v0 =>
    cases v0
    case null =>
      rw [applyRule_null p f r hl]
      intro v hv
      rw [hl] at hv
      exact Or.inl (Option.some.inj hv).symm
    all_goals
      rw [applyRule_some p f r _ hl (by simp)]
      split_ifs with hc hd
      · intro v hv
        rw [alookup_aset_self] at hv
        exact Or.inr (Or.inr (Or.inr ⟨hd, (Option.some.inj hv).symm⟩))
      · intro v hv
        rw [alookup_apop_self p f hp] at hv
        exact absurd hv (by simp)
      · intro v hv
        rw [hl] at hv
        rw [← Option.some.inj hv]
        simp only [Bool.and_eq_true, Bool.not_eq_eq_eq_not, Bool.not_true,
          not_and, Bool.not_eq_false] at hc
        by_cases he : r.allowed.isEmpty = true
        · exact Or.inr (Or.inl (List.isEmpty_iff.mp he))
        · exact Or.inr (Or.inr (Or.inl (hc (by simpa using he))))

theorem applyRule_of_normalizedAt (p : PropMap) (f : String) (r : Rule)
    (h : normalizedAt p f r) : applyRule p f r = p := by
  cases hl : alookup p f with
  | none => exact applyRule_none p f r hl
  | some v =>
    by_cases hv : v = .null
    · exact applyRule_null p f r (hv ▸ hl)
    · rw [applyRule_some p f r v hl hv]
      rcases h v hl with h1 | h1 | h1 | ⟨h1, h2⟩
      · exact absurd h1 hv
      · simp [h1]
      · simp [h1]
      · split_ifs with hc
        · rw [← h2]
          exact aset_of_alookup_eq p f v hl
        · rfl

theorem normalizeAllowed_nil (p : PropMap) : normalizeAllowed p [] = p := rfl

theorem normalizeAllowed_cons (p : PropMap) (f : String) (r : Rule)
    (rs : List (String × Rule)) :
    normalizeAllowed p ((f, r) :: rs) = normalizeAllowed (applyRule p f r) rs :=
  rfl

theorem normalizeAllowed_lookup_ne (p : PropMap) (rules : List (String × Rule))
    (k' : String) (h : k' ∉ akeys rules) :
    alookup (normalizeAllowed p rules) k' = alookup p k' := by
  induction rules generalizing p with
  | nil => rfl
  | cons hd rs ih =>
    obtain ⟨f, r⟩ := hd
    rw [akeys_cons, List.mem_cons] at h
    push_neg at h
    rw [normalizeAllowed_cons, ih (applyRule p f r) h.2,
      applyRule_lookup_ne p f r k' h.1]

theorem normalizeAllowed_nodup (p : PropMap) (rules : List (String × Rule))
    (h : (akeys p).Nodup) : (akeys (normalizeAllowed p rules)).Nodup := by
  induction rules generalizing p with
  | nil => exact h
  | cons hd rs ih =>
    obtain ⟨f, r⟩ := hd
    rw [normalizeAllowed_cons]
    exact ih (applyRule p f r) (applyRule_nodup p f r h)

theorem normalizeAllowed_idem_aux :
    ∀ (rules : List (String × Rule)) (props : PropMap),
      (akeys props).Nodup → (akeys rules).Nodup →
      normalizeAllowed (normalizeAllowed props rules) rules =
        normalizeAllowed props rules
  | [], _, _, _ => rfl
  | (f, r) :: rs, props, hp, hr => by
    rw [akeys_cons, List.nodup_cons] at hr
    have hq : (akeys (applyRule props f r)).Nodup := applyRule_nodup props f r hp
    have hstep : applyRule (normalizeAllowed (applyRule props f r) rs) f r =
        normalizeAllowed (applyRule props f r) rs :=
      applyRule_of_normalizedAt _ f r
        (normalizedAt_congr _ _ f r
          (normalizeAllowed_lookup_ne (applyRule props f r) rs f hr.1).symm
          (applyRule_normalizedAt props f r hp))
    rw [normalizeAllowed_cons, normalizeAllowed_cons, hstep,
      normalizeAllowed_idem_aux rs (applyRule props f r) hq hr.2]

theorem alookup_split {α : Type} :
    ∀ (l : List (String × α)) (k : String) (r : α),
      alookup l k = some r →
      ∃ l1 l2, l = l1 ++ (k, r) :: l2 ∧ k ∉ akeys l1
  | [], k, r, h => by simp [alookup] at h
  | (k0, v0) :: tl, k, r, h => by
    by_cases h0 : k0 = k
    · subst h0
      rw [alookup, if_pos rfl, Option.some.injEq] at h
      exact ⟨[], tl, by rw [h]; rfl, by simp [akeys]⟩
    · rw [alookup, if_neg h0] at h
      obtain ⟨l1, l2, he, hn⟩ := alookup_split tl k r h
      refine ⟨(k0, v0) :: l1, l2, by rw [he, List.cons_append], ?_⟩
      rw [akeys_cons, List.mem_cons]
      push_neg
      exact ⟨fun e => h0 e.symm, hn⟩

theorem normalizeAllowed_append (p : PropMap) (l1 l2 : List (String × Rule)) :
    normalizeAllowed p (l1 ++ l2) = normalizeAllowed (normalizeAllowed p l1) l2 := by
  simp [normalizeAllowed, List.foldl_append]

/-! ## C8 — allow-list normalization is idempotent -/

/-- C8 -- allow-list normalization is idempotent: re-running the
`allowed_values` pass of `send_to_hubspot` (`05_dynamic_fileds`, step 3) on
an already-normalized property map is a no-op (property maps and the
`allowed_values` config are Python dicts, so their key lists are free of
duplicates). -/
theorem allowlist_normalize_idempotent (props : PropMap)
    (rules : List (String × Rule)) (hp : (akeys props).Nodup)
    (hr : (akeys rules).Nodup) :
    normalizeAllowed (normalizeAllowed props rules) rules =
      normalizeAllowed props rules :=
  normalizeAllowed_idem_aux rules props hp hr

/-- C8 witness: idempotence evaluated on a concrete map exercising both the
substitution and the pass-through branch. -/
theorem allowlist_normalize_idempotent_witness :
    normalizeAllowed (normalizeAllowed
        [("status", JValue.s "archived"), ("email", JValue.s "a@x.com")]
        [("status", ⟨[JValue.s "open"], JValue.s "open"⟩)])
      [("status", ⟨[JValue.s "open"], JValue.s "open"⟩)] =
      normalizeAllowed
        [("status", JValue.s "archived"), ("email", JValue.s "a@x.com")]
        [("status", ⟨[JValue.s "open"], JValue.s "open"⟩)] :=
  allowlist_normalize_idempotent _ _ (by decide) (by decide)

/-! ## C4 — allow-list enforcement -/

/-- C4 counterexample: a property whose value is `None` under a rule with a
non-empty allowed list and no default survives normalization unchanged — the
source guards the whole rule with `properties[field] is not None` — even
though `None` is outside the allowed set, where the claim requires the
property to be removed. -/
theorem allowlist_none_value_counterexample :
    normalizeAllowed [("status", JValue.null)]
        [("status", ⟨[JValue.s "open"], JValue.null⟩)] =
      [("status", JValue.null)] ∧
    pyMem JValue.null [JValue.s "open"] = false ∧
    pyTruthy JValue.null = false :=
  ⟨rfl, rfl, rfl⟩

/-- C4 (amended) -- allow-list enforcement as the code implements it: for a
property governed by a rule, any value surviving normalization is `None`, or
the rule's allowed list is empty, or the value is in the allowed list, or it
is the rule's truthy default; and a present non-`None` value outside a
non-empty allowed list is replaced by the default when the default is truthy
and removed from the map when it is not.  (`None` values, rules with an empty
allowed list, and falsy defaults are the deviations from the claim as
written.) -/
theorem allowlist_enforcement (props : PropMap) (rules : List (String × Rule))
    (field : String) (r : Rule) (hp : (akeys props).Nodup)
    (hr : (akeys rules).Nodup) (hf : alookup rules field = some r) :
    (∀ v, alookup (normalizeAllowed props rules) field = some v →
      v = .null ∨ r.allowed = [] ∨ pyMem v r.allowed = true ∨
        (pyTruthy r.default = true ∧ v = r.default)) ∧
    (∀ v, alookup props field = some v → v ≠ .null →
      r.allowed ≠ [] → pyMem v r.allowed = false →
      alookup (normalizeAllowed props rules) field =
        (if pyTruthy r.default then some r.default else none)) := by
  obtain ⟨l1, l2, he, hn1⟩ := alookup_split rules field r hf
  subst he
  have hkeys : akeys (l1 ++ (field, r) :: l2) = akeys l1 ++ field :: akeys l2 := by
    simp [akeys]
  rw [hkeys] at hr
  have hn2 : field ∉ akeys l2 :=
    (List.nodup_cons.mp (List.Nodup.of_append_right hr)).1
  have hP1 : (akeys (normalizeAllowed props l1)).Nodup :=
    normalizeAllowed_nodup props l1 hp
  have hl1 : alookup (normalizeAllowed props l1) field = alookup props field :=
    normalizeAllowed_lookup_ne props l1 field hn1
  constructor
  · intro v hv
    rw [normalizeAllowed_append, normalizeAllowed_cons,
      normalizeAllowed_lookup_ne _ l2 field hn2] at hv
    exact applyRule_normalizedAt (normalizeAllowed props l1) field r hP1 v hv
  · intro v hv hvn hre hmem
    rw [normalizeAllowed_append, normalizeAllowed_cons,
      normalizeAllowed_lookup_ne _ l2 field hn2,
      applyRule_some (normalizeAllowed props l1) field r v (hl1.trans hv) hvn]
    have hc : (!r.allowed.isEmpty && !pyMem v r.allowed) = true := by
      simp [hmem, List.isEmpty_iff, hre]
    rw [if_pos hc]
    split_ifs with hd
    · exact alookup_aset_self _ field r.default
    · exact alookup_apop_self _ field hP1

/-- C4 witness: scenario C of the spec — `status="archived"` under
`allowed=["open","closed"], default="open"` is substituted by the default. -/
theorem allowlist_enforcement_witness :
    pyMem (JValue.s "archived") [JValue.s "open", JValue.s "closed"] = false ∧
    alookup (normalizeAllowed [("status", JValue.s "archived")]
        [("status", ⟨[JValue.s "open", JValue.s "closed"], JValue.s "open"⟩)])
      "status" = some (JValue.s "open") := by
  refine ⟨rfl, ?_⟩
  have h := (allowlist_enforcement [("status", JValue.s "archived")]
      [("status", ⟨[JValue.s "open", JValue.s "closed"], JValue.s "open"⟩)]
      "status" ⟨[JValue.s "open", JValue.s "closed"], JValue.s "open"⟩
      (by decide) (by decide) rfl).2 (JValue.s "archived") rfl
      (fun e => JValue.noConfusion e) (by simp) rfl
  exact h

/-! ## C5 — "already exists" during property creation is success -/

/-- C5 -- property creation treats the destination's duplicate response as
success: status 409 ("already exists") and status 201 are both classified
"Property ready" — so two reconcilers racing to create the same property,
one receiving 201 and the other 409, both observe the terminal success
state — an exception escapes `create_hubspot_property` only when the
transport call itself raised (there is no `raise_for_status` on the
response), and the `sync_custom_attributes` variant likewise classifies 409
as "already exists" and continues. -/
theorem property_conflict_is_success :
    create_hubspot_property (.ok 409) = .ok .ready ∧
    create_hubspot_property (.ok 201) = .ok .ready ∧
    (∀ (resp : Except TransportErr Nat) (e : TransportErr),
      create_hubspot_property resp = .error e ↔ resp = .error e) ∧
    classifyAttrCreation 201 = .createdNew ∧
    classifyAttrCreation 409 = .alreadyExists := by
  refine ⟨rfl, rfl, ?_, rfl, rfl⟩
  intro resp e
  cases resp with
  | ok status => simp [create_hubspot_property]
  | error e0 => simp [create_hubspot_property]

/-! ## C6 — re-fetch of the property cache after creation -/

/-- C6 counterexample: in `05_dynamic_fileds` the property set is listed once
per record and every missing property is created against that single listing:
with two missing properties the trace has a creation immediately followed by
another creation — no re-fetch between a creation and the next
missing-property decision, and none after the last creation. -/
theorem refetch_after_create_counterexample :
    ensureCalls05 ["a", "b"] [] =
      [NetCall.listProperties, NetCall.createProperty "a",
       NetCall.createProperty "b"] ∧
    immediatelyRefetched (ensureCalls05 ["a", "b"] []) = false :=
  ⟨rfl, rfl⟩

theorem count_listProperties_in_creates (l : List String) :
    ((l.map NetCall.createProperty).count NetCall.listProperties) = 0 := by
  induction l with
  | nil => rfl
  | cons x xs ih => simp [List.count_cons, ih]

/-- C6 (amended) -- the re-fetch discipline holds for the
`Create_custom_attributes` reconciler but not for the `05_dynamic_fileds`
one: in `sync_custom_attributes` every property-creation call is immediately
followed by a re-fetch of the property listing (for any key sequence and any
starting property set), while `send_to_hubspot` of `05_dynamic_fileds` lists
the properties exactly once per record and issues all its creation calls
against that single pre-creation listing. -/
theorem refetch_after_create_amended :
    (∀ (ks props : List String),
      immediatelyRefetched (ensureAttrs ks props) = true) ∧
    (∀ (names existing : List String),
      (ensureCalls05 names existing).count NetCall.listProperties = 1) := by
  constructor
  · intro ks
    induction ks with
    | nil => intro props; rfl
    | cons k rest ih =>
      intro props
      by_cases h : props.contains k
      · simp only [ensureAttrs, if_pos h]
        exact ih props
      · simp only [ensureAttrs, if_neg h]
        show immediatelyRefetched (.createProperty k :: .listProperties :: _) = true
        rw [immediatelyRefetched]
        exact ih (k :: props)
  · intro names existing
    simp [ensureCalls05, List.count_cons, count_listProperties_in_creates]

/-! ## C7 — per-record failure isolation in the orchestrator -/

/-- C7 counterexample: in the `05_dynamic_fileds` orchestrator a record that
raises aborts the whole run — with a batch of two records whose first raises,
no outcome is produced at all (not even for the second record) and the
exception escapes `sync_all` — where the claim requires the failure to be
converted to an outcome and processing to continue with the next record. -/
theorem sync_all_abort_counterexample :
    syncAll05 [RunOutcome.exc "boom", RunOutcome.ok .created] =
      ([], some "boom") :=
  rfl

/-- C7 (amended) -- failure isolation as the code implements it: in
`05_dynamic_fileds` there is no per-record handler, so the first raising
record ends the run (earlier records' outcomes stand, all later records are
never processed, the exception escapes); in
`01_run_but_confilt_so_filed_missing` the handler sits at the object-type
boundary, so a raising record drops the remaining records of its own object
type but the following object types are still processed. -/
theorem sync_failure_isolation_amended :
    (∀ (pre : List Outcome) (e : String) (post : List RunOutcome),
      syncAll05 (pre.map RunOutcome.ok ++ RunOutcome.exc e :: post) =
        (pre, some e)) ∧
    (∀ (pre : List Outcome) (e : String) (post : List RunOutcome)
      (ts : List (List RunOutcome)),
      syncAll01 ((pre.map RunOutcome.ok ++ RunOutcome.exc e :: post) :: ts) =
        (pre, true) :: syncAll01 ts) := by
  have h05 : ∀ (pre : List Outcome) (e : String) (post : List RunOutcome),
      syncAll05 (pre.map RunOutcome.ok ++ RunOutcome.exc e :: post) =
        (pre, some e) := by
    intro pre e post
    induction pre with
    | nil => rfl
    | cons o os ih => simp [syncAll05, ih]
  have h01 : ∀ (pre : List Outcome) (e : String) (post : List RunOutcome),
      processType01 (pre.map RunOutcome.ok ++ RunOutcome.exc e :: post) =
        (pre, true) := by
    intro pre e post
    induction pre with
    | nil => rfl
    | cons o os ih => simp [processType01, ih]
  exact ⟨h05, fun pre e post ts => by simp [syncAll01, h01 pre e post]⟩

/-! ## C1 — update wins over create; upsert is idempotent -/

/-- C1 -- the upsert engine (steps 5–6 of `send_to_hubspot`,
`05_dynamic_fileds`) against the honest destination: (a) whenever the search
for the unique-field value finds at least one existing record, the engine
patches the first matched record's id and issues no create call; (b) from a
state with no match, running the upsert twice with identical input
properties yields `created` then `updated` — the record created by the first
run is found by the second run's search, so no second create happens for the
same unique value. -/
theorem upsert_update_wins :
    (∀ (uf : String) (props : PropMap) (st : List HRecord) (r : HRecord)
      (rs : List HRecord),
      pyTruthy ((alookup props uf).getD .null) = true →
      searchMatches st uf ((alookup props uf).getD .null) = r :: rs →
      (upsert05 uf props st).1 = .updated ∧
      (upsert05 uf props st).2.2 = [.searchCall, .patchCall r.id] ∧
      NetCall.createCall ∉ (upsert05 uf props st).2.2) ∧
    (∀ (uf : String) (props : PropMap) (st : List HRecord),
      pyTruthy ((alookup props uf).getD .null) = true →
      searchMatches st uf ((alookup props uf).getD .null) = [] →
      (upsert05 uf props st).1 = .created ∧
      (upsert05 uf props ((upsert05 uf props st).2.1)).1 = .updated) := by
  constructor
  · intro uf props st r rs h hm
    refine ⟨?_, ?_, ?_⟩ <;> simp [upsert05, h, hm]
  · intro uf props st h hm
    cases ho : alookup props uf with
    | none =>
      rw [ho] at h
      simp [pyTruthy] at h
    | some v =>
      have huv : (alookup props uf).getD .null = v := by rw [ho]; rfl
      rw [huv] at h hm
      refine ⟨by simp [upsert05, huv, h, hm], ?_⟩
      have hst1 : (upsert05 uf props st).2.1 = st ++ [⟨freshId st, props⟩] := by
        simp [upsert05, huv, h, hm]
      rw [hst1]
      have hm2 : searchMatches (st ++ [⟨freshId st, props⟩]) uf v =
          [⟨freshId st, props⟩] := by
        unfold searchMatches at hm ⊢
        rw [List.filter_append, hm]
        simp [ho, pyEq_refl]
      simp [upsert05, huv, h, hm2]

/-- C1 witness: a state holding two records with the same email — the upsert
updates the first match (id 7) and issues no create; and from the empty
state, two successive upserts of the same record yield `created` then
`updated`. -/
theorem upsert_update_wins_witness :
    (upsert05 "email" [("email", .s "a@x.com")]
        [⟨7, [("email", .s "a@x.com")]⟩, ⟨9, [("email", .s "a@x.com")]⟩]).1 =
      .updated ∧
    (upsert05 "email" [("email", .s "a@x.com")]
        [⟨7, [("email", .s "a@x.com")]⟩, ⟨9, [("email", .s "a@x.com")]⟩]).2.2 =
      [.searchCall, .patchCall 7] ∧
    (upsert05 "email" [("email", .s "a@x.com")] []).1 = .created ∧
    (upsert05 "email" [("email", .s "a@x.com")]
      ((upsert05 "email" [("email", .s "a@x.com")] []).2.1)).1 = .updated := by
  refine ⟨?_, ?_, ?_, ?_⟩
  · exact (upsert_update_wins.1 "email" [("email", .s "a@x.com")]
      [⟨7, [("email", .s "a@x.com")]⟩, ⟨9, [("email", .s "a@x.com")]⟩]
      ⟨7, [("email", .s "a@x.com")]⟩ [⟨9, [("email", .s "a@x.com")]⟩]
      rfl rfl).1
  · exact (upsert_update_wins.1 "email" [("email", .s "a@x.com")]
      [⟨7, [("email", .s "a@x.com")]⟩, ⟨9, [("email", .s "a@x.com")]⟩]
      ⟨7, [("email", .s "a@x.com")]⟩ [⟨9, [("email", .s "a@x.com")]⟩]
      rfl rfl).2.1
  · exact (upsert_update_wins.2 "email" [("email", .s "a@x.com")] [] rfl rfl).1
  · exact (upsert_update_wins.2 "email" [("email", .s "a@x.com")] [] rfl rfl).2

/-! ## C2 — skip on missing unique value -/

theorem upsert_calls_not_in_pre (names existing : List String) :
    NetCall.searchCall ∉ ensureCalls05 names existing ∧
    NetCall.createCall ∉ ensureCalls05 names existing ∧
    ∀ id, NetCall.patchCall id ∉ ensureCalls05 names existing := by
  refine ⟨?_, ?_, fun id => ?_⟩ <;> simp [ensureCalls05]

/-- C2 counterexample: a record whose resolved unique-field value is `None`
is indeed skipped, but only after three network calls have already been
issued for it — the metafield fetch, the property listing, and a
property-creation call — where the claim requires zero network calls. -/
theorem skip_no_unique_counterexample :
    sendToHubspot05
        ⟨[("email", "email")], [], "email", "contact_info"⟩
        (.obj [("id", .i 1)])
        ⟨[], [], 200, [], 201⟩ =
      (.skippedNoUnique,
        [NetCall.fetchMetafields, NetCall.listProperties,
         NetCall.createProperty "email"]) ∧
    (sendToHubspot05
        ⟨[("email", "email")], [], "email", "contact_info"⟩
        (.obj [("id", .i 1)])
        ⟨[], [], 200, [], 201⟩).2.length = 3 :=
  ⟨rfl, rfl⟩

/-- C2 (amended) -- a record whose unique-field value is empty or missing
(falsy) is classified `skipped_no_unique_value` and no search, create or
update call is issued for it; but the skip happens only after the metafield
fetch, the property listing and any property-creation calls, which are
issued for the record regardless. -/
theorem skip_no_unique_value_amended (cfg : Cfg) (obj : JValue) (t : Transport)
    (h : pyTruthy ((alookup (resolvedProps05 cfg obj t.metafields)
        cfg.uniqueField).getD .null) = false) :
    sendToHubspot05 cfg obj t =
      (.skippedNoUnique, NetCall.fetchMetafields ::
        ensureCalls05 (akeys (resolvedProps05 cfg obj t.metafields))
          t.hubspotProperties) ∧
    NetCall.searchCall ∉ (sendToHubspot05 cfg obj t).2 ∧
    NetCall.createCall ∉ (sendToHubspot05 cfg obj t).2 ∧
    ∀ id, NetCall.patchCall id ∉ (sendToHubspot05 cfg obj t).2 := by
  have he : sendToHubspot05 cfg obj t =
      (.skippedNoUnique, NetCall.fetchMetafields ::
        ensureCalls05 (akeys (resolvedProps05 cfg obj t.metafields))
          t.hubspotProperties) := by
    simp [sendToHubspot05, h]
  have hpre := upsert_calls_not_in_pre
    (akeys (resolvedProps05 cfg obj t.metafields)) t.hubspotProperties
  refine ⟨he, ?_, ?_, fun id => ?_⟩ <;>
    rw [he] <;> simp_all

/-- C2 witness: the amended statement evaluated on the scenario-D record
(empty unique value): outcome `skipped_no_unique_value` with exactly the
pre-skip calls and none of the upsert calls. -/
theorem skip_no_unique_value_amended_witness :
    sendToHubspot05
        ⟨[("email", "email")], [], "email", "contact_info"⟩
        (.obj [("id", .i 1), ("email", .s "")])
        ⟨[("vip", .s "true")], ["email"], 200, [], 201⟩ =
      (.skippedNoUnique,
        [NetCall.fetchMetafields, NetCall.listProperties,
         NetCall.createProperty "vip"]) ∧
    NetCall.searchCall ∉ (sendToHubspot05
        ⟨[("email", "email")], [], "email", "contact_info"⟩
        (.obj [("id", .i 1), ("email", .s "")])
        ⟨[("vip", .s "true")], ["email"], 200, [], 201⟩).2 := by
  have h := skip_no_unique_value_amended
    ⟨[("email", "email")], [], "email", "contact_info"⟩
    (.obj [("id", .i 1), ("email", .s "")])
    ⟨[("vip", .s "true")], ["email"], 200, [], 201⟩ rfl
  exact ⟨h.1.trans rfl, h.2.1⟩

/-! ## C10 — a failed search is treated as zero matches -/

/-- C10 -- in the upsert of `send_to_hubspot` (`05_dynamic_fileds`), a search
response with a non-200 status is treated exactly like an empty result list
(`results = ... if resp.status_code == 200 else []`): whatever records the
response body carries, the engine proceeds to the create branch — issuing a
create call, never a patch — so a record whose existing match the search
fails to report is created a second time under the same unique value. -/
theorem search_failure_treated_as_no_match (cfg : Cfg) (obj : JValue)
    (t : Transport)
    (h : pyTruthy ((alookup (resolvedProps05 cfg obj t.metafields)
        cfg.uniqueField).getD .null) = true)
    (hs : t.searchStatus ≠ 200) :
    sendToHubspot05 cfg obj t =
      ((if t.createStatus == 201 then .created else .failedCreate),
       (NetCall.fetchMetafields ::
        ensureCalls05 (akeys (resolvedProps05 cfg obj t.metafields))
          t.hubspotProperties) ++ [NetCall.searchCall, NetCall.createCall]) := by
  simp [sendToHubspot05, h, beq_eq_false_iff_ne.mpr hs]

/-- C10 witness: the search transport answers 500 while its body (and the
destination) holds a record with the very email being synced; the engine
still creates — outcome `created`, trace ending in the create call — i.e. a
duplicate record for `a@x.com`. -/
theorem search_failure_treated_as_no_match_witness :
    sendToHubspot05
        ⟨[("email", "email")], [], "email", "contact_info"⟩
        (.obj [("email", .s "a@x.com")])
        ⟨[], ["email"], 500, [⟨7, [("email", .s "a@x.com")]⟩], 201⟩ =
      (.created, [NetCall.fetchMetafields, NetCall.listProperties,
        NetCall.searchCall, NetCall.createCall]) :=
  (search_failure_treated_as_no_match
    ⟨[("email", "email")], [], "email", "contact_info"⟩
    (.obj [("email", .s "a@x.com")])
    ⟨[], ["email"], 500, [⟨7, [("email", .s "a@x.com")]⟩], 201⟩
    rfl (by decide)).trans rfl

/-! ## C9 — flattening of structured values -/

theorem mem_aset {α : Type} :
    ∀ (p : List (String × α)) (k : String) (v : α) (x : String × α),
      x ∈ aset p k v → x ∈ p ∨ x = (k, v)
  | [], k, v, x, h => by
    rw [aset] at h
    exact Or.inr (List.mem_singleton.mp h)
  | (k0, v0) :: tl, k, v, x, h => by
    by_cases h0 : k0 = k
    · rw [aset, if_pos h0, List.mem_cons] at h
      rcases h with h | h
      · exact Or.inr (by rw [h, h0])
      · exact Or.inl (List.mem_cons_of_mem _ h)
    · rw [aset, if_neg h0, List.mem_cons] at h
      rcases h with h | h
      · exact Or.inl (h ▸ List.mem_cons_self _ _)
      · rcases mem_aset tl k v x h with h2 | h2
        · exact Or.inl (List.mem_cons_of_mem _ h2)
        · exact Or.inr h2

theorem isScalar_flatten04 (v : JValue) : isScalar (flatten04 v) = true := by
  cases v <;> rfl

theorem mapFields04_scalar_aux :
    ∀ (mapping : List (String × String)) (obj : List (String × JValue))
      (acc : PropMap), (∀ kv ∈ acc, isScalar kv.2 = true) →
      ∀ kv ∈ mapping.foldl (fun props m =>
        aset props m.2 (flatten04 ((alookup obj m.1).getD .null))) acc,
        isScalar kv.2 = true
  | [], _, _, hacc, kv, h => hacc kv h
  | m :: ms, obj, acc, hacc, kv, h => by
    refine mapFields04_scalar_aux ms obj _ ?_ kv h
    intro kv2 h2
    rcases mem_aset acc m.2 (flatten04 ((alookup obj m.1).getD .null)) kv2 h2
      with h3 | h3
    · exact hacc kv2 h3
    · rw [h3]
      exact isScalar_flatten04 _

/-- C9 counterexample: the `05_dynamic_fileds` mapper performs no
serialization at all — a nested-dict source value reaches the resolved
property map (and hence the outgoing payload) as a structured value, not as
a canonical string. -/
theorem flattening_counterexample :
    mapFields05 [("custom", "custom")]
        (.obj [("custom", .obj [("vip", .b true)])]) =
      [("custom", JValue.obj [("vip", JValue.b true)])] ∧
    isScalar (JValue.obj [("vip", JValue.b true)]) = false :=
  ⟨rfl, rfl⟩

/-- C9 (amended) -- flattening as the code implements it: in the
`04_filed_map` variant every statically mapped value is flattened
(`json.dumps` for dicts and lists), so its resolved property map holds only
scalar values — but the serialization keeps dict insertion order
(`json.dumps` without `sort_keys`), it is not a canonical sorted form; and
the `05_dynamic_fileds` variant does not flatten at all. -/
theorem flattening_amended :
    (∀ (mapping : List (String × String)) (obj : List (String × JValue))
      (kv : String × JValue), kv ∈ mapFields04 mapping obj →
      isScalar kv.2 = true) ∧
    pyJsonDumps (.obj [("b", .i 1), ("a", .i 2)]) =
      "\x7b\"b\": 1, \"a\": 2\x7d" := by
  constructor
  · intro mapping obj kv h
    exact mapFields04_scalar_aux mapping obj [] (by intro kv2 h2; cases h2) kv h
  · rfl

/-- C9 witness: the `04_filed_map` mapper on a record with a nested dict —
the mapped value is the `json.dumps` string, a scalar. -/
theorem flattening_amended_witness :
    mapFields04 [("custom", "custom")] [("custom", .obj [("vip", .b true)])] =
      [("custom", JValue.s "\x7b\"vip\": true\x7d")] ∧
    isScalar (JValue.s "\x7b\"vip\": true\x7d") = true := by
  refine ⟨rfl, ?_⟩
  exact flattening_amended.1 [("custom", "custom")]
    [("custom", .obj [("vip", .b true)])]
    ("custom", JValue.s "\x7b\"vip\": true\x7d") (List.Mem.head _)
